import Mathlib

/-!
Verification development for the lntools repository: a shallow embedding of

* the BOLT-11 invoice decoder (`packages/lntools-invoice/lib/decoder.js`),
  the 5-bit word cursor (`word-cursor.js`) and the invoice encoder,
* the BOLT-8 Noise_XK handshake / transport state machine (`noise-state.js`),

together with theorems settling the frozen specification claims.

Buffers and 5-bit word arrays are embedded as `List Nat`; JavaScript numbers
are embedded as `Int`, with the 32-bit truncating semantics of the JS bitwise
operators (`<<`, `|`, `&`, `>>`) made explicit where the source uses them.
External collaborators (bech32 framing, the crypto substrate) enter as
function-valued parameters, mirroring the spec's "contract only" boundary.
-/

deriving instance DecidableEq for Except

namespace LNTools

/-! ## JavaScript numeric and array primitives -/

/-- JS ToUint32: the value of an integer reduced into `[0, 2^32)`. -/
def toUint32 (v : Int) : Nat := (v % 4294967296).toNat

/-- JS ToInt32: the value of an integer reduced into `[-2^31, 2^31)`. -/
def toInt32 (v : Int) : Int :=
  let u := toUint32 v
  if u < 2147483648 then (u : Int) else (u : Int) - 4294967296

/-- JS `<<` (32-bit left shift): shift count is taken mod 32, result Int32. -/
def jsShl32 (v : Int) (s : Nat) : Int := toInt32 ((toUint32 v) * 2 ^ (s % 32))

/-- JS `|` (32-bit bitwise or on the two's-complement bit patterns). -/
def jsOr32 (a b : Int) : Int := toInt32 ((toUint32 a) ||| (toUint32 b))

/-- JS `& 31` (32-bit bitwise and with the constant 31). -/
def jsAnd31 (v : Int) : Nat := (toUint32 v) % 32

/-- JS `>>` (sign-propagating 32-bit right shift): floor division on Int32. -/
def jsSar32 (v : Int) (s : Nat) : Int := Int.fdiv (toInt32 v) (2 ^ (s % 32))

/-- Normalize a (possibly negative) JS `Array.prototype.slice` index against
a list of length `len`: negative indices count from the end, and the result
is clamped into `[0, len]`. -/
def jsIndex (len : Nat) (i : Int) : Nat :=
  if i < 0 then ((len : Int) + i).toNat else min i.toNat len

/-- JS `Array.prototype.slice(start, end)` (also `Buffer.slice`): the
elements from the normalized start (inclusive) to end (exclusive). -/
def jsSlice {α : Type} (xs : List α) (s e : Int) : List α :=
  (xs.take (jsIndex xs.length e)).drop (jsIndex xs.length s)

/-- ASCII bytes of a JS string (all strings in play are ASCII). -/
def asciiBytes (s : List Char) : List Nat := s.map Char.toNat

/-- Buffer element access: `buf[i]`, with an out-of-range sentinel standing
for JS `undefined` (it compares unequal to every byte value, which is the
only use the source makes of an out-of-range read). -/
def bufAt (xs : List Nat) (i : Nat) : Nat := xs.getD i 256

/-- Node `Buffer.readUInt32BE`. -/
def bufReadUInt32BE (b : List Nat) (off : Nat) : Nat :=
  bufAt b off * 16777216 + bufAt b (off + 1) * 65536 +
    bufAt b (off + 2) * 256 + bufAt b (off + 3)

/-- Node `Buffer.readUInt16BE`. -/
def bufReadUInt16BE (b : List Nat) (off : Nat) : Nat :=
  bufAt b off * 256 + bufAt b (off + 1)

/-- Node `Buffer.readUInt16LE`. -/
def bufReadUInt16LE (b : List Nat) (off : Nat) : Nat :=
  bufAt b off + 256 * bufAt b (off + 1)

/-- Node `Buffer.writeUInt16LE` (value assumed in `0..65535`, as at every
call site reached by the source: the nonce counter is reset at 1000). -/
def bufWriteUInt16LE (b : List Nat) (v : Nat) (off : Nat) : List Nat :=
  (b.set off (v % 256)).set (off + 1) (v / 256 % 256)

/-- Big-endian 2-byte rendering of a value `< 65536` (`Buffer.writeUInt16BE`). -/
def u16be (v : Nat) : List Nat := [v / 256 % 256, v % 256]

/-- Big-endian 4-byte rendering (`Buffer.writeUInt32BE`). -/
def u32be (v : Nat) : List Nat :=
  [v / 16777216 % 256, v / 65536 % 256, v / 256 % 256, v % 256]

/-- `Buffer.alloc(12)`: twelve zero bytes. -/
def zeros12 : List Nat := List.replicate 12 0

/-! ## bech32-util (file absent from src/)

The repository file `bech32-util.js` (required by `word-cursor.js`,
`decoder.js` and the encoder as `./bech32-util`) is not under `src/`; the
definitions below are modelled from the spec. -/

/-- Emit one `t`-bit group (MSB first) out of an accumulator holding `bits`
bits, `k` times at most; the count makes the recursion structural. -/
def emitGo (t : Nat) : Nat → Nat → Nat → List Nat × Nat × Nat
  | 0, acc, bits => ([], acc, bits)
  | k + 1, acc, bits =>
    if 0 < t ∧ t ≤ bits then
      let out := acc / 2 ^ (bits - t) % 2 ^ t
      let rest := emitGo t k (acc % 2 ^ (bits - t)) (bits - t)
      (out :: rest.1, rest.2)
    else ([], acc, bits)

/-- Emit all full `t`-bit groups (MSB first) out of an accumulator holding
`bits` bits (`bits / t` emissions); returns the emitted groups and the
leftover accumulator/bits. -/
def emitGroups (t : Nat) (acc bits : Nat) : List Nat × Nat × Nat :=
  emitGo t (bits / t) acc bits

/-- Modelled from the spec: the grouping loop of the canonical bech32
convert-bits function (`bech32-util.js`, absent from src/): feed each input
value (masked to `f` bits) into the accumulator and emit every full `t`-bit
group MSB-first. Returns the output groups and the leftover accumulator. -/
def convGo (f t : Nat) : List Nat → Nat → Nat → List Nat × Nat × Nat
  | [], acc, bits => ([], acc, bits)
  | v :: rest, acc, bits =>
    let acc1 := acc * 2 ^ f + v % 2 ^ f
    let e := emitGroups t acc1 (bits + f)
    let r := convGo f t rest e.2.1 e.2.2
    (e.1 ++ r.1, r.2)

/-- Modelled from the spec: `bech32Util.convertWords(data, f, t, pad)`
(file absent from src/): regroup `f`-bit values into `t`-bit values;
with `pad` the final partial group is zero-padded on the low bits, without
`pad` a trailing partial fragment is discarded (spec 4.1: "any trailing
partial-byte fragment must be discarded"). -/
def convertWords (data : List Nat) (f t : Nat) (pad : Bool) : List Nat :=
  let r := convGo f t data 0 0
  r.1 ++ (if pad ∧ 0 < r.2.2 then [r.2.1 * 2 ^ (t - r.2.2) % 2 ^ t] else [])

/-- Modelled from the spec: `bech32Util.sizeofBytes` = ceil(byteLen * 8 / 5). -/
def sizeofBytes (byteLen : Nat) : Nat := (byteLen * 8 + 4) / 5

/-- Modelled from the spec: `bech32Util.sizeofBits` = ceil(bits / 5). -/
def sizeofBits (bits : Nat) : Nat := (bits + 4) / 5

/-- Word-count loop for `sizeofNum`: one word per base-32 digit; the fuel
(at least the value itself) makes the recursion structural and is never
exhausted. -/
def sizeofNumGo : Nat → Nat → Nat
  | _, 0 => 0
  | 0, _ => 0
  | fuel + 1, n => 1 + sizeofNumGo fuel (n / 32)

/-- Modelled from the spec: `bech32Util.sizeofNum` = the smallest word count
whose 5-bit capacity holds the value (0 needs 0 words; spec 4.3/9). -/
def sizeofNum (v : Int) : Nat :=
  if v ≤ 0 then 0 else sizeofNumGo v.toNat v.toNat

/-! ## WordCursor (`word-cursor.js`) -/

/-- The 5-bit word cursor of `word-cursor.js`: a word array and a monotone
position. The position is an `Int` because the decoder passes
`words.length - 104` (negative on short inputs) to `readBytes`. -/
structure WordCursor where
  words : List Nat
  position : Int
deriving Repr, DecidableEq

namespace WordCursor

/-- `get wordsRemaining() { return this.words.length - this.position }`. -/
def wordsRemaining (c : WordCursor) : Int := (c.words.length : Int) - c.position

/-- `readUIntBE(numWords)`: slice `numWords` words at the position and fold
them MSB-first with the JS 32-bit `<<`/`|` operators; advance the position.
Returns the value and the advanced cursor. -/
def readUIntBE (c : WordCursor) (numWords : Int) : Int × WordCursor :=
  let ws := jsSlice c.words c.position (c.position + numWords)
  (ws.foldl (fun val (w : Nat) => jsOr32 (jsShl32 val 5) w) 0,
    { words := c.words, position := c.position + numWords })

/-- `readBytes(numWords, pad = false)`: slice `numWords` words, advance, and
regroup 5-bit words into bytes. -/
def readBytes (c : WordCursor) (numWords : Int) (pad : Bool) :
    List Nat × WordCursor :=
  let ws := jsSlice c.words c.position (c.position + numWords)
  (convertWords ws 5 8 pad,
    { words := c.words, position := c.position + numWords })

/-- The word list built by `writeUIntBE`'s downward loop:
`words[i] = val & 31; val >>= 5` from the last slot up. -/
def writeWords (val : Int) : Nat → List Nat
  | 0 => []
  | n + 1 => writeWords (jsSar32 val 5) n ++ [jsAnd31 val]

/-- `writeUIntBE(val, wordLen)`: appends `wordLen` words; throws when
`wordLen` is 0 (`if (!wordLen) throw`). -/
def writeUIntBE (c : WordCursor) (val : Int) (wordLen : Nat) :
    Except String WordCursor :=
  if wordLen = 0 then .error "wordLen must be provided"
  else .ok { words := c.words ++ writeWords val wordLen, position := c.position }

/-- `writeBytes(buf, pad = true)`: appends the 8→5 regrouping of `buf`. -/
def writeBytes (c : WordCursor) (buf : List Nat) (pad : Bool) : WordCursor :=
  { words := c.words ++ convertWords buf 8 5 pad, position := c.position }

end WordCursor

/-! ## Invoice data model (`invoice.js` record shape, spec section 3) -/

/-- One routing hop of a `route` (type 3) field (`decoder.js:61-67`). -/
structure RouteHop where
  pubkey : List Nat
  short_channel_id : List Nat
  fee_base_msat : Nat
  fee_proportional_millionths : Nat
  cltv_expiry_delta : Nat
deriving Repr, DecidableEq

/-- The JS values stored in a field entry: Buffers, utf-8 text (kept as its
byte sequence), numbers, the fallback-address object, or a hop list. -/
inductive FieldValue where
  | bytes (bs : List Nat)
  | text (bs : List Nat)
  | num (v : Int)
  | fallback (version : Int) (address : List Nat)
  | route (hops : List RouteHop)
deriving Repr, DecidableEq

/-- A `{ type, value }` field entry as pushed by the decoder. -/
structure Field where
  type : Int
  value : FieldValue
deriving Repr, DecidableEq

/-- The value of a field read as a Buffer (the source accesses `.value`
directly where it is known to hold a Buffer; other shapes never reach
those accesses on decoded invoices). -/
def FieldValue.asBytes : FieldValue → List Nat
  | .bytes bs => bs
  | _ => []

/-- `{ r, s, recoveryFlag }` (`decoder.js:151`). -/
structure Signature where
  r : List Nat
  s : List Nat
  recoveryFlag : Int
deriving Repr, DecidableEq

/-- The record decode constructs (`decoder.js:145-155`; `invoice.js` is
absent from src/, its record shape is taken from the spec's data model). -/
structure Invoice where
  network : List Char
  value : Option Int
  timestamp : Int
  fields : List Field
  unknownFields : List Field
  signature : Signature
  pubkey : List Nat
  hashData : List Nat
  usedSigRecovery : Bool
deriving Repr, DecidableEq

/-- The crypto substrate used by the invoice codec (`crypto.js`; an external
collaborator per the spec, "contract only"): entered as function values. -/
structure Crypto where
  sha256 : List Nat → List Nat
  ecdsaRecovery : List Nat → List Nat → Int → List Nat
  ecdsaVerify : List Nat → List Nat → List Nat → Bool
  ecdsaSign : List Nat → List Nat → List Nat × Int

/-! ## Prefix parser (`decoder.js:178-227`) -/

/-- `charCode >= 97 && charCode <= 122` (lowercase ASCII letter). -/
def isLowerCode (n : Nat) : Bool := 97 ≤ n && n ≤ 122

/-- `charCode >= 48 && charCode <= 57` (ASCII decimal digit). -/
def isDigitCode (n : Nat) : Bool := 48 ≤ n && n ≤ 57

/-- The mutable locals of `parsePrefix`'s character loop. -/
structure PPState where
  network : List Char
  value : List Char
  multiplier : Option Char
  hasNetwork : Bool
  hasAmount : Bool
deriving Repr, DecidableEq

/-- One iteration of `parsePrefix`'s loop (`decoder.js:186-204`): the three
phase blocks run in sequence on the same character. -/
def ppStep (st : PPState) (c : Char) : Except String PPState :=
  let code := c.toNat
  let st1 :=
    if !st.hasNetwork then
      if isLowerCode code then { st with network := st.network ++ [c] }
      else { st with hasNetwork := true }
    else st
  do
    let st2 ←
      if st1.hasNetwork && !st1.hasAmount then
        if isDigitCode code then pure { st1 with value := st1.value ++ [c] }
        else if st1.value ≠ [] then pure { st1 with hasAmount := true }
        else Except.error "Invalid amount"
      else pure st1
    if st2.hasAmount then
      if isLowerCode code then pure { st2 with multiplier := some c }
      else Except.error "Invalid character"
    else pure st2

/-- `parsePrefix`'s loop over the characters after the leading `ln`. -/
def ppLoop (st : PPState) : List Char → Except String PPState
  | [] => .ok st
  | c :: cs => do ppLoop (← ppStep st c) cs

/-- Digit characters to a number (`new BN(value)`, arbitrary precision). -/
def digitsToNat (ds : List Char) : Nat :=
  ds.foldl (fun a c => a * 10 + (c.toNat - 48)) 0

/-- Modelled from the spec: `hrp-pico.js` (absent from src/) maps the
multiplier letter to a pico-unit factor per the spec's table (section 6);
an unknown letter is an amount error (section 7). -/
def hrpToPico : Option Char → Except String Int
  | none => .ok 1000000000000
  | some 'm' => .ok 1000000000
  | some 'u' => .ok 1000000
  | some 'n' => .ok 1000
  | some 'p' => .ok 1
  | some _ => .error "Invalid amount"

/-- `isValidNetwork` (`decoder.js:221-223`). -/
def isValidNetwork (n : List Char) : Bool :=
  n = ['b', 'c'] || n = ['t', 'b'] || n = ['b', 'c', 'r', 't'] || n = ['s', 'b']

/-- `isValidValue` (`decoder.js:225-227`): `null` or strictly positive. -/
def isValidValue : Option Int → Bool
  | none => true
  | some v => 0 < v

/-- `parsePrefix(prefix)` (`decoder.js:178-219`): returns the network tag
and the pico-unit amount (`null` when absent). -/
def parsePrefix (hrp : List Char) : Except String (List Char × Option Int) :=
  match hrp with
  | 'l' :: 'n' :: rest => do
    let st ← ppLoop ⟨[], [], none, false, false⟩ rest
    let value ←
      match st.value with
      | [] => pure (none : Option Int)
      | ds => do
        let pico ← hrpToPico st.multiplier
        pure (some ((digitsToNat ds : Int) * pico))
    if isValidNetwork st.network then
      if isValidValue value then .ok (st.network, value)
      else .error "Invalid amount"
    else .error "Invalid network"
  | _ => .error "Invalid prefix"

/-! ## Invoice decoder (`decoder.js:21-156`) -/

/-- Modelled from the spec: the route-hop loop (`decoder.js:60-68`) reads
hops of 33+8+4+4+2 = 51 bytes through the external `simple-buffer-cursor`
until the buffer is exhausted; a partial trailing hop is a fatal decode
error (spec 4.2, error kind TruncatedPayload). -/
def parseRoutesGo : Nat → List Nat → Except String (List RouteHop)
  | 0, _ => .error "route fuel exhausted"
  | fuel + 1, bs =>
    if bs.isEmpty then .ok []
    else if 51 ≤ bs.length then do
      let hop : RouteHop :=
        { pubkey := bs.take 33
          short_channel_id := (bs.drop 33).take 8
          fee_base_msat := bufReadUInt32BE bs 41
          fee_proportional_millionths := bufReadUInt32BE bs 45
          cltv_expiry_delta := bufReadUInt16BE bs 49 }
      let rest ← parseRoutesGo fuel (bs.drop 51)
      .ok (hop :: rest)
    else .error "Index out of range"

/-- The hop loop entry point; the fuel (one more than the byte count) is
never exhausted since every hop consumes 51 bytes. -/
def parseRoutes (bs : List Nat) : Except String (List RouteHop) :=
  parseRoutesGo (bs.length + 1) bs

/-- One iteration of decode's field loop (`decoder.js:39-118`): read the
type word and the two length words, then dispatch.  Returns the advanced
cursor and the (zero- or one-element) appendages to `fields` and
`unknownFields`. -/
def fieldStep (wc : WordCursor) : Except String (WordCursor × List Field × List Field) :=
  let r1 := wc.readUIntBE 1
  let type := r1.1
  let r2 := r1.2.readUIntBE 2
  let len := r2.1
  let wc2 := r2.2
  if type = 0 then .ok (wc2, [], [])
  else if type = 1 then
    let rb := wc2.readBytes len false
    if len = 52 then .ok (rb.2, [⟨1, .bytes rb.1⟩], [])
    else .ok (rb.2, [], [⟨1, .bytes rb.1⟩])
  else if type = 3 then do
    let rb := wc2.readBytes len false
    let hops ← parseRoutes rb.1
    .ok (rb.2, [⟨3, .route hops⟩], [])
  else if type = 6 then
    let rv := wc2.readUIntBE len
    .ok (rv.2, [⟨6, .num rv.1⟩], [])
  else if type = 9 then
    let rv := wc2.readUIntBE 1
    let rb := rv.2.readBytes (len - 1) false
    let fv := FieldValue.fallback rv.1 rb.1
    if rv.1 = 0 ∨ rv.1 = 17 ∨ rv.1 = 18 then .ok (rb.2, [⟨9, fv⟩], [])
    else .ok (rb.2, [], [⟨9, fv⟩])
  else if type = 13 then
    let rb := wc2.readBytes len false
    .ok (rb.2, [⟨13, .text rb.1⟩], [])
  else if type = 19 then
    let rb := wc2.readBytes len false
    if len = 53 then .ok (rb.2, [⟨19, .bytes rb.1⟩], [])
    else .ok (rb.2, [], [⟨19, .bytes rb.1⟩])
  else if type = 23 then
    let rb := wc2.readBytes len false
    if len = 52 then .ok (rb.2, [⟨23, .bytes rb.1⟩], [])
    else .ok (rb.2, [], [⟨23, .bytes rb.1⟩])
  else if type = 24 then
    let rv := wc2.readUIntBE len
    .ok (rv.2, [⟨24, .num rv.1⟩], [])
  else
    let rb := wc2.readBytes len false
    .ok (rb.2, [], [⟨type, .bytes rb.1⟩])

/-- Decode's `while (wordsRemaining > 104)` loop.  The fuel argument only
bounds the recursion; `decode` passes `words.length + 1`, which is never
exhausted on bech32 word streams (each iteration advances the position by
at least 3). -/
def fieldLoop : Nat → WordCursor → List Field → List Field →
    Except String (List Field × List Field × WordCursor)
  | 0, _, _, _ => .error "decode loop fuel exhausted"
  | fuel + 1, wc, fs, us =>
    if 104 < wc.wordsRemaining then do
      let step ← fieldStep wc
      fieldLoop fuel step.1 (fs ++ step.2.1) (us ++ step.2.2)
    else .ok (fs, us, wc)

/-- `decode(invoice)` (`decoder.js:21-156`), taken after the external
bech32 layer: input is the `(prefix, words)` pair `bech32.decode` returns. -/
def decode (C : Crypto) (hrp : List Char) (words : List Nat) :
    Except String Invoice := do
  let pr ← parsePrefix hrp
  let wc0 : WordCursor := ⟨words, 0⟩
  let rt := wc0.readUIntBE 7
  let timestamp := rt.1
  let lp ← fieldLoop (words.length + 1) rt.2 [] []
  let fields := lp.1
  let unknowns := lp.2.1
  let rs := lp.2.2.readBytes 103 false
  let sigBytes := rs.1
  let r := jsSlice sigBytes 0 32
  let s := jsSlice sigBytes 32 sigBytes.length
  let rrec := rs.2.readUIntBE 1
  let recoveryFlag := rrec.1
  let wc5 : WordCursor := ⟨rrec.2.words, 0⟩
  let ph := wc5.readBytes ((words.length : Int) - 104) true
  let preHashData := asciiBytes hrp ++ ph.1
  let hashData := C.sha256 preHashData
  let payeeNodeField := fields.find? (fun p => p.type == 19)
  let pubkey :=
    match payeeNodeField with
    | some f => f.value.asBytes
    | none => C.ecdsaRecovery hashData sigBytes recoveryFlag
  if C.ecdsaVerify pubkey hashData sigBytes then
    .ok { network := pr.1, value := pr.2, timestamp := timestamp,
          fields := fields, unknownFields := unknowns,
          signature := ⟨r, s, recoveryFlag⟩, pubkey := pubkey,
          hashData := hashData,
          usedSigRecovery := payeeNodeField.isSome }
  else .error "Signature invalid"

/-! ## Invoice encoder (`encoder.js`, first file of src/unnamed/part_001) -/

/-- Decimal digit loop; the fuel (at least the value) is never exhausted. -/
def natDigitsGo : Nat → Nat → List Char
  | 0, _ => []
  | fuel + 1, n =>
    if n < 10 then [Char.ofNat (48 + n)]
    else natDigitsGo fuel (n / 10) ++ [Char.ofNat (48 + n % 10)]

/-- Decimal digit characters of a number. -/
def natDigits (n : Nat) : List Char := natDigitsGo (n + 1) n

/-- Modelled from the spec: `encode-pico.js` (absent from src/) renders a
pico amount as the shortest digits+multiplier string, preferring
higher-value multipliers on ties (spec 4.4/6); `null` renders empty. -/
def encodePico : Option Int → List Char
  | none => []
  | some x =>
    let cands := [(none, (1000000000000 : Int)), (some 'm', 1000000000),
                  (some 'u', 1000000), (some 'n', 1000), (some 'p', 1)]
    let rend := fun (c : Option Char × Int) =>
      natDigits (x / c.2).toNat ++ (match c.1 with | some l => [l] | none => [])
    let ok := (cands.filter (fun c => x % c.2 = 0)).map rend
    match ok with
    | [] => []
    | r :: rs => rs.foldl (fun best r2 => if r2.length < best.length then r2 else best) r

/-- The 51 bytes of one encoded route hop (`_encodeData`, route case): the
source copies the 33-byte pubkey and 8-byte short channel id and writes the
fees and cltv delta big-endian into a contiguous buffer. -/
def hopBytes (h : RouteHop) : List Nat :=
  h.pubkey ++ h.short_channel_id ++ u32be h.fee_base_msat ++
    u32be h.fee_proportional_millionths ++ u16be h.cltv_expiry_delta

/-- One field of `_encodeData`'s loop (`encoder.js:42-138`).  A known type
whose stored value has the wrong JS shape cannot be processed (on decoded
invoices these branches are unreachable); an unknown type whose value is
not a Buffer throws `Cannot process unknown field`. -/
def encodeField (w : WordCursor) (datum : Field) : Except String WordCursor :=
  if datum.type = 1 ∨ datum.type = 19 ∨ datum.type = 23 then
    match datum.value with
    | .bytes bs => do
      let w ← w.writeUIntBE datum.type 1
      let w ← w.writeUIntBE (sizeofBytes bs.length) 2
      .ok (w.writeBytes bs true)
    | _ => .error "Cannot process field"
  else if datum.type = 3 then
    match datum.value with
    | .route hops => do
      let bits := hops.length * 408
      let w ← w.writeUIntBE 3 1
      let w ← w.writeUIntBE (sizeofBits bits) 2
      .ok (w.writeBytes (hops.map hopBytes).flatten true)
    | _ => .error "Cannot process field"
  else if datum.type = 6 ∨ datum.type = 24 then
    match datum.value with
    | .num v => do
      let dataLen := sizeofNum v
      let w ← w.writeUIntBE datum.type 1
      let w ← w.writeUIntBE dataLen 2
      w.writeUIntBE v dataLen
    | _ => .error "Cannot process field"
  else if datum.type = 9 then
    match datum.value with
    | .fallback version addr => do
      let w ← w.writeUIntBE 9 1
      let w ← w.writeUIntBE (sizeofBytes addr.length + 1) 2
      let w ← w.writeUIntBE version 1
      .ok (w.writeBytes addr true)
    | _ => .error "Cannot process field"
  else if datum.type = 13 then
    match datum.value with
    | .text bs => do
      let w ← w.writeUIntBE 13 1
      let w ← w.writeUIntBE (sizeofBytes bs.length) 2
      .ok (w.writeBytes bs true)
    | _ => .error "Cannot process field"
  else
    match datum.value with
    | .bytes bs => do
      let w ← w.writeUIntBE datum.type 1
      let w ← w.writeUIntBE (sizeofBytes bs.length) 2
      .ok (w.writeBytes bs true)
    | _ => .error "Cannot process unknown field"

/-- `_encodeData(invoice, writer)` (`encoder.js:42-139`): emits every entry
of `invoice.fields` in order.  `unknownFields` is never consulted. -/
def encodeData (w : WordCursor) : List Field → Except String WordCursor
  | [] => .ok w
  | f :: fs => do encodeData (← encodeField w f) fs

/-- The result of `encode` before the external bech32 layer: the prefix and
word stream handed to `bech32.encode`, together with the digest handed to
`crypto.ecdsaSign` (observable through the crypto contract). -/
structure EncodeResult where
  hrp : List Char
  words : List Nat
  sigHash : List Nat
deriving Repr, DecidableEq

/-- `encode(invoice, privKey)` (`encoder.js:14-40`), up to the external
`bech32.encode` call. -/
def encode (C : Crypto) (invoice : Invoice) (privKey : List Nat) :
    Except String EncodeResult := do
  let encodedAmount := encodePico invoice.value
  let hrp := 'l' :: 'n' :: (invoice.network ++ encodedAmount)
  let w0 : WordCursor := ⟨[], 0⟩
  let w1 ← w0.writeUIntBE invoice.timestamp 7
  let w2 ← encodeData w1 invoice.fields
  let bytes := convertWords w2.words 5 8 true
  let sigData := asciiBytes hrp ++ bytes
  let sigHash := C.sha256 sigData
  let sg := C.ecdsaSign sigHash privKey
  let w3 := w2.writeBytes sg.1 true
  let w4 ← w3.writeUIntBE sg.2 1
  .ok ⟨hrp, w4.words, sigHash⟩

/-! ## Noise_XK handshake and transport (`noise-state.js`, second file of
src/unnamed/part_001) -/

/-- The `@lntools/crypto` substrate used by `NoiseState` (an external
collaborator per the spec, "contract only").  `ccpDecrypt` is total here:
authentication failure lives inside the external AEAD and is not observable
in the shallow embedding (the handshake claims quantify over runs that
complete without error). -/
structure NoiseCrypto where
  sha256 : List Nat → List Nat
  hkdf : List Nat → List Nat → List Nat
  ecdh : List Nat → List Nat → List Nat
  getPublicKey : List Nat → List Nat
  ccpEncrypt : List Nat → List Nat → List Nat → List Nat → List Nat
  ccpDecrypt : List Nat → List Nat → List Nat → List Nat → List Nat

/-- ASCII bytes of `'Noise_XK_secp256k1_ChaChaPoly_SHA256'`. -/
def protocolName : List Nat := asciiBytes "Noise_XK_secp256k1_ChaChaPoly_SHA256".data

/-- ASCII bytes of `'lightning'`. -/
def prologue : List Nat := asciiBytes "lightning".data

/-- The `NoiseState` instance fields (`noise-state.js:146-193`); fields the
constructor leaves undefined start as `[]`. -/
structure NoiseState where
  ls : List Nat
  lp : List Nat
  es : List Nat
  ep : List Nat
  rs : List Nat
  re : List Nat
  h : List Nat
  ck : List Nat
  temp_k1 : List Nat
  temp_k2 : List Nat
  temp_k3 : List Nat
  rk : List Nat
  sk : List Nat
  sn : List Nat
  rn : List Nat
deriving Repr, DecidableEq

namespace NoiseState

/-- The constructor (`noise-state.js:155-193`). -/
def mk0 (C : NoiseCrypto) (ls es : List Nat) : NoiseState :=
  { ls := ls, lp := C.getPublicKey ls, es := es, ep := C.getPublicKey es,
    rs := [], re := [], h := [], ck := [], temp_k1 := [], temp_k2 := [],
    temp_k3 := [], rk := [], sk := [], sn := [], rn := [] }

/-- `_initialize(pubkey)` (`noise-state.js:199-205`). -/
def initState (C : NoiseCrypto) (st : NoiseState) (pubkey : List Nat) : NoiseState :=
  let h0 := C.sha256 protocolName
  let ck := h0
  let h1 := C.sha256 (h0 ++ prologue)
  let h2 := C.sha256 (h1 ++ pubkey)
  { st with h := h2, ck := ck }

/-- The explicit nonce of Act 3 (`Buffer.from([0,0,0,0,1,0,0,0,0,0,0,0])`
in `initiatorAct3`; `Buffer.from('000000000100000000000000','hex')` in
`receiveAct3` — the same twelve bytes). -/
def nonce1 : List Nat := [0, 0, 0, 0, 1, 0, 0, 0, 0, 0, 0, 0]

/-- `initiatorAct1(rs)` (`noise-state.js:212-229`): returns the 50-byte
message and the updated state. -/
def initiatorAct1 (C : NoiseCrypto) (st : NoiseState) (rs : List Nat) :
    List Nat × NoiseState :=
  let st := initState C { st with rs := rs } rs
  let h := C.sha256 (st.h ++ st.ep)
  let ss := C.ecdh st.rs st.es
  let t1 := C.hkdf st.ck ss
  let ck := t1.take 32
  let tk1 := t1.drop 32
  let c := C.ccpEncrypt tk1 zeros12 h []
  let h2 := C.sha256 (h ++ c)
  ([0] ++ st.ep ++ c,
    { st with h := h2, ck := ck, temp_k1 := tk1 })

/-- `initiatorAct2(m)` (`noise-state.js:231-265`). -/
def initiatorAct2 (C : NoiseCrypto) (st : NoiseState) (m : List Nat) :
    Except String NoiseState :=
  if m.length ≠ 50 then .error "ACT2_READ_FAILED"
  else
    let v := bufAt (jsSlice m 0 1) 0
    let re := jsSlice m 1 34
    let c := jsSlice m 34 m.length
    let st := { st with re := re }
    if v ≠ 0 then .error "ACT2_BAD_VERSION"
    else
      let h := C.sha256 (st.h ++ st.re)
      let ss := C.ecdh st.re st.es
      let t2 := C.hkdf st.ck ss
      let ck := t2.take 32
      let tk2 := t2.drop 32
      let _p := C.ccpDecrypt tk2 zeros12 h c
      let h2 := C.sha256 (h ++ c)
      .ok { st with h := h2, ck := ck, temp_k2 := tk2 }

/-- `initiatorAct3()` (`noise-state.js:267-304`): returns the 66-byte
message and the state holding the directional keys
(`sk = first 32, rk = last 32` of `hkdf(ck, ∅)`, lines 292-295). -/
def initiatorAct3 (C : NoiseCrypto) (st : NoiseState) : List Nat × NoiseState :=
  let c := C.ccpEncrypt st.temp_k2 nonce1 st.h st.lp
  let h := C.sha256 (st.h ++ c)
  let ss := C.ecdh st.re st.ls
  let t3 := C.hkdf st.ck ss
  let ck := t3.take 32
  let tk3 := t3.drop 32
  let t := C.ccpEncrypt tk3 zeros12 h []
  let skrk := C.hkdf ck []
  ([0] ++ c ++ t,
    { st with
      h := h
      ck := ck
      temp_k3 := tk3
      rk := skrk.drop 32
      sk := skrk.take 32
      sn := zeros12
      rn := zeros12 })

/-- `receiveAct1(m)` (`noise-state.js:306-339`). -/
def receiveAct1 (C : NoiseCrypto) (st : NoiseState) (m : List Nat) :
    Except String NoiseState :=
  let st := initState C st st.lp
  if m.length ≠ 50 then .error "ACT1_READ_FAILED"
  else
    let v := bufAt (jsSlice m 0 1) 0
    let re := jsSlice m 1 34
    let c := jsSlice m 34 m.length
    let st := { st with re := re }
    if v ≠ 0 then .error "ACT1_BAD_VERSION"
    else
      let h := C.sha256 (st.h ++ re)
      let ss := C.ecdh re st.ls
      let t1 := C.hkdf st.ck ss
      let ck := t1.take 32
      let tk1 := t1.drop 32
      let _p := C.ccpDecrypt tk1 zeros12 h c
      let h2 := C.sha256 (h ++ c)
      .ok { st with h := h2, ck := ck, temp_k1 := tk1 }

/-- `recieveAct2()` (`noise-state.js:341-364`; source spelling). -/
def recieveAct2 (C : NoiseCrypto) (st : NoiseState) : List Nat × NoiseState :=
  let h := C.sha256 (st.h ++ st.ep)
  let ss := C.ecdh st.re st.es
  let t2 := C.hkdf st.ck ss
  let ck := t2.take 32
  let tk2 := t2.drop 32
  let c := C.ccpEncrypt tk2 zeros12 h []
  let h2 := C.sha256 (h ++ c)
  ([0] ++ st.ep ++ c,
    { st with h := h2, ck := ck, temp_k2 := tk2 })

/-- `receiveAct3(m)` (`noise-state.js:366-404`): the directional keys are
assigned the opposite halves (`rk = first 32, sk = last 32` of
`hkdf(ck, ∅)`, lines 396-399). -/
def receiveAct3 (C : NoiseCrypto) (st : NoiseState) (m : List Nat) :
    Except String NoiseState :=
  if m.length ≠ 66 then .error "ACT3_READ_FAILED"
  else
    let v := bufAt (jsSlice m 0 1) 0
    let c := jsSlice m 1 50
    let t := jsSlice m 50 m.length
    if v ≠ 0 then .error "ACT3_BAD_VERSION"
    else
      let rs := C.ccpDecrypt st.temp_k2 nonce1 st.h c
      let st := { st with rs := rs }
      let h := C.sha256 (st.h ++ c)
      let ss := C.ecdh st.rs st.es
      let t3 := C.hkdf st.ck ss
      let ck := t3.take 32
      let tk3 := t3.drop 32
      let _p := C.ccpDecrypt tk3 zeros12 h t
      let skrk := C.hkdf ck []
      .ok { st with
            h := h
            ck := ck
            temp_k3 := tk3
            rk := skrk.take 32
            sk := skrk.drop 32
            rn := zeros12
            sn := zeros12 }

/-- `_incrementSendingNonce()` (`noise-state.js:443-447`): bump the
little-endian u16 at byte offset 4 and return the new value. -/
def incNonce (b : List Nat) : Nat × List Nat :=
  let newValue := bufReadUInt16LE b 4 + 1
  (newValue, bufWriteUInt16LE b newValue 4)

/-- `_rotateSendingKeys()` (`noise-state.js:455-461`). -/
def rotateSendingKeys (C : NoiseCrypto) (st : NoiseState) : NoiseState :=
  let result := C.hkdf st.ck st.sk
  { st with sk := result.drop 32, ck := result.take 32, sn := zeros12 }

/-- `_rotateRecievingKeys()` (`noise-state.js:463-469`; source spelling). -/
def rotateRecievingKeys (C : NoiseCrypto) (st : NoiseState) : NoiseState :=
  let result := C.hkdf st.ck st.rk
  { st with rk := result.drop 32, ck := result.take 32, rn := zeros12 }

/-- The sending-nonce bookkeeping shared by both halves of
`encryptMessage` (steps 3a and 4a): increment, and rotate when the
post-increment counter reaches 1000. -/
def sendNonceStep (C : NoiseCrypto) (st : NoiseState) : NoiseState :=
  let r := incNonce st.sn
  let st := { st with sn := r.2 }
  if 1000 ≤ r.1 then rotateSendingKeys C st else st

/-- The receiving-nonce bookkeeping shared by `decryptLength` and
`decryptMessage`. -/
def recvNonceStep (C : NoiseCrypto) (st : NoiseState) : NoiseState :=
  let r := incNonce st.rn
  let st := { st with rn := r.2 }
  if 1000 ≤ r.1 then rotateRecievingKeys C st else st

/-- `encryptMessage(m)` (`noise-state.js:406-425`): encrypt the length
prefix and the body, each with the current `(sk, sn)`, advancing the nonce
(and possibly rotating) after each encryption. -/
def encryptMessage (C : NoiseCrypto) (st : NoiseState) (m : List Nat) :
    List Nat × NoiseState :=
  let l := u16be m.length
  let lc := C.ccpEncrypt st.sk st.sn [] l
  let st1 := sendNonceStep C st
  let c := C.ccpEncrypt st1.sk st1.sn [] m
  let st2 := sendNonceStep C st1
  (lc ++ c, st2)

/-- `decryptLength(lc)` (`noise-state.js:427-433`). -/
def decryptLength (C : NoiseCrypto) (st : NoiseState) (lc : List Nat) :
    Nat × NoiseState :=
  let l := C.ccpDecrypt st.rk st.rn [] lc
  (bufReadUInt16BE l 0, recvNonceStep C st)

/-- `decryptMessage(c)` (`noise-state.js:435-441`). -/
def decryptMessage (C : NoiseCrypto) (st : NoiseState) (c : List Nat) :
    List Nat × NoiseState :=
  let m := C.ccpDecrypt st.rk st.rn [] c
  (m, recvNonceStep C st)

/-- The 12-byte nonce whose little-endian u16 counter at bytes 4..5 is `k`
and whose other ten bytes are zero. -/
def nonceAt (k : Nat) : List Nat :=
  [0, 0, 0, 0, k % 256, k / 256 % 256, 0, 0, 0, 0, 0, 0]

/-- Transport states reachable from `init` by send-side AEAD operations
(the two halves of `encryptMessage`) and receive-side AEAD operations
(`decryptLength`, `decryptMessage`). -/
inductive Reachable (C : NoiseCrypto) (init : NoiseState) : NoiseState → Prop
  | refl : Reachable C init init
  | send {s : NoiseState} : Reachable C init s → Reachable C init (sendNonceStep C s)
  | recvLen {s : NoiseState} (lc : List Nat) :
      Reachable C init s → Reachable C init (decryptLength C s lc).2
  | recvMsg {s : NoiseState} (c : List Nat) :
      Reachable C init s → Reachable C init (decryptMessage C s c).2

end NoiseState

/-! ## Concrete instantiations of the external contracts

Used to evaluate the embedded code on concrete inputs: a crypto backend
whose verification always succeeds (decode's behaviour up to the final
verify call does not depend on the backend), and a noise backend whose
AEAD appends a 16-byte tag, satisfying the contract hypotheses of the
handshake theorems. -/

/-- An invoice-crypto backend with trivial hash/recovery, always-true
verification, and an all-zero 64-byte signature. -/
def CdecTrue : Crypto :=
  { sha256 := fun _ => []
    ecdsaRecovery := fun _ _ _ => []
    ecdsaVerify := fun _ _ _ => true
    ecdsaSign := fun _ _ => (List.replicate 64 0, 0) }

/-- The characters of the HRP `lnbc`. -/
def lnbcChars : List Char := ['l', 'n', 'b', 'c']

/-- A 167-word stream: 7 timestamp words, one payee_node field
(type 19, len 53, fifty-three `1` words), and a 104-word signature tail. -/
def wordsC1 : List Nat :=
  List.replicate 7 0 ++ [19, 1, 21] ++ List.replicate 53 1 ++ List.replicate 104 0

/-- The 33 bytes carried by the payee_node field of `wordsC1`
(the 5→8 regrouping of fifty-three `1` words). -/
def payeeBytesC1 : List Nat :=
  [8, 66, 16, 132, 33, 8, 66, 16, 132, 33, 8, 66, 16, 132, 33, 8, 66, 16,
   132, 33, 8, 66, 16, 132, 33, 8, 66, 16, 132, 33, 8, 66, 16]

/-- The invoice decoded from `wordsC1` under `CdecTrue`. -/
def invC1 : Invoice :=
  { network := ['b', 'c'], value := none, timestamp := 0,
    fields := [⟨19, .bytes payeeBytesC1⟩], unknownFields := [],
    signature := ⟨List.replicate 32 0, List.replicate 32 0, 0⟩,
    pubkey := payeeBytesC1, hashData := [],
    usedSigRecovery := true }

/-- The invoice decoded from the empty word stream under `CdecTrue`. -/
def invC7 : Invoice :=
  { network := ['b', 'c'], value := none, timestamp := 0,
    fields := [], unknownFields := [],
    signature := ⟨[], [], 0⟩, pubkey := [], hashData := [],
    usedSigRecovery := false }

/-- A 114-word stream: 7 timestamp words, one unknown-type entry
(type 2, len 0) and a 104-word signature tail. -/
def wordsC9 : List Nat :=
  List.replicate 7 0 ++ [2, 0, 0] ++ List.replicate 104 0

/-- The invoice decoded from `wordsC9` under `CdecTrue`: the type-2 entry
lands in `unknownFields`. -/
def invC9 : Invoice :=
  { network := ['b', 'c'], value := none, timestamp := 0,
    fields := [], unknownFields := [⟨2, .bytes []⟩],
    signature := ⟨List.replicate 32 0, List.replicate 32 0, 0⟩,
    pubkey := [], hashData := [],
    usedSigRecovery := false }

/-- A 111-word stream with no fields at all: 7 timestamp words and the
104-word signature tail. -/
def wordsC8 : List Nat := List.replicate 111 0

/-- The invoice decoded from `wordsC8` under `CdecTrue`. -/
def invC8 : Invoice :=
  { network := ['b', 'c'], value := none, timestamp := 0,
    fields := [], unknownFields := [],
    signature := ⟨List.replicate 32 0, List.replicate 32 0, 0⟩,
    pubkey := [], hashData := [],
    usedSigRecovery := false }

/-- The result of `encode CdecTrue invC8 []`. -/
def rC8 : EncodeResult := ⟨lnbcChars, List.replicate 111 0, []⟩

/-- A noise backend satisfying the handshake contract hypotheses:
33-byte public keys, a symmetric (here: constant) ECDH, an AEAD that
appends a 16-byte tag and whose decryption strips it. -/
def NCw : NoiseCrypto :=
  { sha256 := fun x => x
    hkdf := fun _ _ => List.replicate 64 7
    ecdh := fun _ _ => []
    getPublicKey := fun _ => List.replicate 33 9
    ccpEncrypt := fun _ _ _ p => p ++ List.replicate 16 0
    ccpDecrypt := fun _ _ _ c => c.take (c.length - 16) }

/-- A post-handshake transport state over `NCw` with fresh nonces. -/
def sendSt : NoiseState :=
  { NoiseState.mk0 NCw [] [] with ck := [1, 2], sk := [3, 4], sn := zeros12, rn := zeros12 }

/-- The spec's unsigned MSB-first fold of 5-bit words (spec 4.1:
"consume word_count words and fold them MSB-first into an unsigned
integer"); the reference point for `readUIntBE`. -/
def uintFoldSpec (ws : List Nat) : Nat := ws.foldl (fun a w => a * 32 + w) 0

/-- The characters after the network tag of an HRP: drop the leading
`ln` and the maximal run of lowercase letters. -/
def restAfterNetwork (hrp : List Char) : List Char :=
  (hrp.drop 2).dropWhile (fun c => isLowerCode c.toNat)

/-- The amount grammar accepted by `parsePrefix` after the network tag:
nothing at all, or a non-empty run of decimal digits followed by a run
(possibly empty) of lowercase letters. -/
def amountShapeOK (rest : List Char) : Bool :=
  rest.isEmpty ||
    (!(rest.takeWhile (fun c => isDigitCode c.toNat)).isEmpty &&
      (rest.dropWhile (fun c => isDigitCode c.toNat)).all (fun c => isLowerCode c.toNat))

/-! ## Helper lemmas -/

theorem toUint32_cast (a : Nat) (h : a < 4294967296) : toUint32 (a : Int) = a := by
  unfold toUint32
  omega

theorem toInt32_cast (a : Nat) (h : a < 2147483648) : toInt32 (a : Int) = (a : Int) := by
  unfold toInt32
  rw [toUint32_cast a (by omega)]
  simp only [if_pos h]

theorem lor_mul32_add (a w : Nat) (hw : w < 32) : (32 * a) ||| w = 32 * a + w := by
  have h32 : (32 : Nat) * a = 2 ^ 5 * a := by norm_num
  apply Nat.eq_of_testBit_eq
  intro j
  rw [Nat.testBit_lor]
  have hz := Nat.testBit_mul_pow_two_add a (show (0 : Nat) < 2 ^ 5 by norm_num) j
  have hk := Nat.testBit_mul_pow_two_add a (show w < 2 ^ 5 from hw) j
  rw [Nat.add_zero] at hz
  rw [h32, hk]
  by_cases hj : j < 5
  · rw [hz, if_pos hj, if_pos hj]
    simp
  · rw [hz, if_neg hj, if_neg hj]
    have hwj : w.testBit j = false :=
      Nat.testBit_eq_false_of_lt (lt_of_lt_of_le hw (by
        calc (32 : Nat) = 2 ^ 5 := by norm_num
        _ ≤ 2 ^ j := Nat.pow_le_pow_right (by norm_num) (by omega)))
    rw [hwj, Bool.or_false]

theorem foldl_mul32_ge (ws : List Nat) (a : Nat) :
    a ≤ ws.foldl (fun x w => x * 32 + w) a := by
  induction ws generalizing a with
  | nil => exact Nat.le_refl a
  | cons w ws ih =>
    calc a ≤ a * 32 + w := by nlinarith
    _ ≤ _ := ih (a * 32 + w)

theorem jsfold_eq_uintFold (ws : List Nat) (a : Nat)
    (hw : ∀ w ∈ ws, w < 32)
    (hlt : ws.foldl (fun x w => x * 32 + w) a < 2147483648) :
    ws.foldl (fun val (w : Nat) => jsOr32 (jsShl32 val 5) w) ((a : Int))
      = ((ws.foldl (fun x w => x * 32 + w) a : Nat) : Int) := by
  induction ws generalizing a with
  | nil => rfl
  | cons w ws ih =>
    have hwlt : w < 32 := hw w (by simp)
    have hstep : a * 32 + w < 2147483648 :=
      lt_of_le_of_lt (foldl_mul32_ge ws (a * 32 + w)) hlt
    have ha : a < 2147483648 := by nlinarith
    have hs : jsOr32 (jsShl32 ((a : Int)) 5) ((w : Nat) : Int) = (((a * 32 + w : Nat)) : Int) := by
      unfold jsShl32 jsOr32
      rw [toUint32_cast a (by omega)]
      have h1 : ((a : Nat) : Int) * 2 ^ (5 % 32) = ((a * 32 : Nat) : Int) := by
        push_cast
        ring
      rw [h1, toInt32_cast (a * 32) (by omega)]
      rw [toUint32_cast (a * 32) (by omega), toUint32_cast w (by omega)]
      rw [Nat.mul_comm a 32, lor_mul32_add a w hwlt]
      rw [toInt32_cast (32 * a + w) (by omega)]
    simp only [List.foldl_cons, hs]
    exact ih (a * 32 + w) (fun x hx => hw x (by simp [hx])) hlt

theorem jsSlice_full {α : Type} (xs : List α) : jsSlice xs 0 (xs.length : Int) = xs := by
  unfold jsSlice jsIndex
  rw [if_neg (by omega : ¬((xs.length : Int) < 0)), if_neg (by omega : ¬((0 : Int) < 0))]
  simp

theorem jsSlice_at_end {α : Type} (xs : List α) (n : Int) (hn : 0 ≤ n) :
    jsSlice xs (xs.length : Int) ((xs.length : Int) + n) = [] := by
  unfold jsSlice jsIndex
  rw [if_neg (by omega : ¬((xs.length : Int) + n < 0)),
    if_neg (by omega : ¬((xs.length : Int) < 0))]
  have h1 : ((xs.length : Int)).toNat = xs.length := by omega
  rw [h1]
  simp

theorem jsSlice_take_104 {α : Type} (xs : List α) (hk : 104 ≤ xs.length) :
    jsSlice xs 0 ((xs.length : Int) - 104) = xs.take (xs.length - 104) := by
  unfold jsSlice jsIndex
  rw [if_neg (by omega : ¬((xs.length : Int) - 104 < 0)),
    if_neg (by omega : ¬((0 : Int) < 0))]
  have h1 : ((xs.length : Int) - 104).toNat = xs.length - 104 := by omega
  rw [h1]
  simp [min_eq_left (by omega : xs.length - 104 ≤ xs.length)]

theorem jsSlice_singleton {α : Type} (xs : List α) (p : Int) (v : α) (hp : 0 ≤ p)
    (hv : xs.get? p.toNat = some v) : jsSlice xs p (p + 1) = [v] := by
  obtain ⟨hlt, hget⟩ := List.get?_eq_some.mp hv
  unfold jsSlice jsIndex
  rw [if_neg (by omega : ¬(p + 1 < 0)), if_neg (by omega : ¬(p < 0))]
  have h1 : (p + 1).toNat = p.toNat + 1 := by omega
  rw [h1, min_eq_left (by omega : p.toNat + 1 ≤ xs.length),
    min_eq_left (by omega : p.toNat ≤ xs.length)]
  rw [List.drop_take]
  have h2 : p.toNat + 1 - p.toNat = 1 := by omega
  rw [h2, List.take_one_drop_eq_of_lt_length hlt, hget]

theorem except_bind_ok {ε α β : Type} (x : Except ε α) (f : α → Except ε β) (b : β)
    (h : (x >>= f) = .ok b) : ∃ a, x = .ok a ∧ f a = .ok b := by
  cases x with
  | error e => simp [Bind.bind, Except.bind] at h
  | ok a => exact ⟨a, rfl, by simpa [Bind.bind, Except.bind] using h⟩

theorem fieldStep_words (wc : WordCursor) (r : WordCursor × List Field × List Field)
    (h : fieldStep wc = .ok r) : r.1.words = wc.words := by
  simp only [fieldStep] at h
  repeat' split at h
  all_goals
    first
      | (cases h; rfl)
      | (obtain ⟨hops, hx, hf⟩ := except_bind_ok _ _ _ h; cases hf; rfl)

theorem fieldLoop_words (fuel : Nat) (wc : WordCursor) (fs us : List Field)
    (r : List Field × List Field × WordCursor)
    (h : fieldLoop fuel wc fs us = .ok r) : r.2.2.words = wc.words := by
  induction fuel generalizing wc fs us with
  | zero => simp [fieldLoop] at h
  | succ n ih =>
    simp only [fieldLoop] at h
    split at h
    · obtain ⟨stp, hx, hf⟩ := except_bind_ok _ _ _ h
      rw [ih _ _ _ hf, fieldStep_words _ _ hx]
    · cases h
      rfl

theorem decode_ok_proj (C : Crypto) (hrp : List Char) (words : List Nat) (inv : Invoice)
    (h : decode C hrp words = .ok inv) :
    inv.timestamp = (WordCursor.readUIntBE ⟨words, 0⟩ 7).1 ∧
    inv.hashData = C.sha256 (asciiBytes hrp ++
      (WordCursor.readBytes ⟨words, 0⟩ ((words.length : Int) - 104) true).1) := by
  simp only [decode] at h
  obtain ⟨pr, hpr, h⟩ := except_bind_ok _ _ _ h
  obtain ⟨lp, hlp, h⟩ := except_bind_ok _ _ _ h
  have hw : lp.2.2.words = words := fieldLoop_words _ _ _ _ _ hlp
  split at h
  · cases h
    refine ⟨rfl, ?_⟩
    simp only [WordCursor.readBytes, WordCursor.readUIntBE]
    rw [hw]
  · cases h

/-! ## Claim C5 -/

set_option maxRecDepth 4000

/-- Claim C5 (counterexample): `readUIntBE` does not return the unsigned
big-endian fold for every 35-bit value.  On the seven words `31,…,31`,
whose unsigned fold is `2^35 - 1 = 34359738367`, it returns `-1`: the JS
`<<`/`|` operators truncate each step to a 32-bit signed integer. -/
theorem c5_readUIntBE_counterexample :
    (WordCursor.readUIntBE ⟨List.replicate 7 31, 0⟩ 7).1 = -1 ∧
    uintFoldSpec (List.replicate 7 31) = 34359738367 ∧
    (WordCursor.readUIntBE ⟨List.replicate 7 31, 0⟩ 7).1 ≠
      (uintFoldSpec (List.replicate 7 31) : Int) := by
  refine ⟨by decide, by decide, by decide⟩

/-- Claim C5 (amended): `readUIntBE(n)` returns the unsigned big-endian
fold of the consumed words whenever that fold is below `2^31`, and decode's
timestamp is exactly `readUIntBE(7)` over the first seven words — so
35-bit timestamps decode exactly only up to `2^31 - 1`, not `2^35 - 1`. -/
theorem c5_readUIntBE_amended (ws : List Nat) (C : Crypto) (hrp : List Char)
    (words : List Nat) (inv : Invoice)
    (hw : ∀ w ∈ ws, w < 32) (hlt : uintFoldSpec ws < 2147483648)
    (hdec : decode C hrp words = .ok inv) :
    (WordCursor.readUIntBE ⟨ws, 0⟩ (ws.length : Int)).1 = (uintFoldSpec ws : Int) ∧
    inv.timestamp = (WordCursor.readUIntBE ⟨words, 0⟩ 7).1 := by
  constructor
  · show (jsSlice ws 0 (0 + (ws.length : Int))).foldl
      (fun val (w : Nat) => jsOr32 (jsShl32 val 5) w) 0 = (uintFoldSpec ws : Int)
    rw [zero_add, jsSlice_full]
    have hres := jsfold_eq_uintFold ws 0 hw hlt
    simpa [uintFoldSpec] using hres
  · exact (decode_ok_proj C hrp words inv hdec).1

/-- Witness for the amended C5 theorem at concrete inputs. -/
theorem c5_readUIntBE_amended_witness :
    (WordCursor.readUIntBE ⟨[1, 2], 0⟩ (([1, 2] : List Nat).length : Int)).1
      = (uintFoldSpec [1, 2] : Int) ∧
    invC8.timestamp = (WordCursor.readUIntBE ⟨wordsC8, 0⟩ 7).1 :=
  c5_readUIntBE_amended [1, 2] CdecTrue lnbcChars wordsC8 invC8
    (by decide) (by decide) (by decide)

/-! ## Claim C2 -/

/-- Claim C2 (counterexample): on the word stream `[0, 7, 7, 1, 2, 3]` one
iteration of decode's field loop, reading the type-0 (padding) entry at
position 0, leaves the cursor at position 3 — the type word AND the two
length words were consumed, where the claim states exactly one word and no
length words. -/
theorem c2_padding_counterexample :
    fieldStep ⟨[0, 7, 7, 1, 2, 3], 0⟩ = .ok (⟨[0, 7, 7, 1, 2, 3], 3⟩, [], []) ∧
    ((3 : Int) ≠ 1) := by
  refine ⟨by decide, by decide⟩

/-- Claim C2 (amended): a type-0 (padding) entry consumes exactly three
words — the type word and the two length words, which `decoder.js:40` reads
before the type dispatch — and contributes nothing to the field lists. -/
theorem c2_padding_amended (wc : WordCursor) (hpos : 0 ≤ wc.position)
    (hw : wc.words.get? wc.position.toNat = some 0) :
    fieldStep wc = .ok (⟨wc.words, wc.position + 3⟩, [], []) := by
  have h1 : jsSlice wc.words wc.position (wc.position + 1) = [0] :=
    jsSlice_singleton wc.words wc.position 0 hpos hw
  simp only [fieldStep, WordCursor.readUIntBE, h1, List.foldl_cons, List.foldl_nil]
  rw [(by decide : jsOr32 (jsShl32 0 5) ((0 : Nat) : Int) = 0)]
  rw [if_pos rfl]
  have h3 : wc.position + 1 + 2 = wc.position + 3 := by ring
  rw [h3]

/-- Witness for the amended C2 theorem at a concrete cursor. -/
theorem c2_padding_amended_witness :
    fieldStep ⟨[0, 9, 9], 0⟩ = .ok (⟨[0, 9, 9], 0 + 3⟩, [], []) :=
  c2_padding_amended ⟨[0, 9, 9], 0⟩ (by decide) (by decide)

/-! ## Claim C7 -/

/-- Claim C7 (counterexample): decode does not fail on inputs with fewer
than 104 words after the timestamp.  On the empty word stream — every read
overruns the end — it returns an Invoice built from short reads (under a
backend whose signature check passes); no truncation error exists in the
decoder. -/
theorem c7_truncation_counterexample :
    decode CdecTrue lnbcChars [] = .ok invC7 := by decide

/-- Claim C7 (amended): cursor reads past the end of the word stream are
silently clamped, not fatal: a read starting at the end consumes no words,
returns the empty fold (0), and still advances the position; decode on a
stream with fewer than 104 words after the timestamp proceeds on the short
reads and can return an Invoice (it fails only at signature validation). -/
theorem c7_truncation_amended (c : WordCursor) (n : Int) (hn : 0 ≤ n)
    (hp : c.position = (c.words.length : Int)) :
    ((c.readUIntBE n).1 = 0 ∧ (c.readUIntBE n).2 = ⟨c.words, c.position + n⟩) ∧
    (decode CdecTrue lnbcChars []).isOk = true := by
  refine ⟨⟨?_, rfl⟩, by decide⟩
  show (jsSlice c.words c.position (c.position + n)).foldl
    (fun val (w : Nat) => jsOr32 (jsShl32 val 5) w) 0 = 0
  rw [hp, jsSlice_at_end c.words n hn]
  rfl

/-- Witness for the amended C7 theorem at a concrete cursor. -/
theorem c7_truncation_amended_witness :
    (((WordCursor.readUIntBE ⟨[4, 4], 2⟩ 7).1 = 0 ∧
      (WordCursor.readUIntBE ⟨[4, 4], 2⟩ 7).2 = ⟨[4, 4], 2 + 7⟩) ∧
    (decode CdecTrue lnbcChars []).isOk = true) :=
  c7_truncation_amended ⟨[4, 4], 2⟩ 7 (by decide) (by decide)

/-! ## Claim C1 -/

/-- Claim C1 (code bug): `wordsC1` carries a payee_node field (type 19,
length 53).  Decode uses the field's bytes directly as `pubkey` — as the
claim states — but sets `used_sig_recovery = true`: `decoder.js:154` stores
`!!payeeNodeField`, the negation of the documented meaning ("true iff
`pubkey` came from ECDSA recovery rather than an explicit payee field"). -/
theorem c1_payee_flag_bug :
    decode CdecTrue lnbcChars wordsC1 = .ok invC1 ∧
    (invC1.fields.find? (fun p => p.type == 19)).isSome = true ∧
    invC1.pubkey = payeeBytesC1 ∧
    invC1.usedSigRecovery = true := by
  refine ⟨by decide, by decide, by decide, by decide⟩

/-! ## Claim C9 -/

/-- Claim C9 (counterexample): `wordsC9` carries an unknown-type entry
(type 2, len 0) at word positions 7..9; decode routes it to
`unknownFields`, and re-encoding the decoded invoice produces a word
stream whose positions 7..9 do not reproduce the entry (the encoder never
consults `unknownFields`). -/
theorem c9_unknown_fields_counterexample :
    decode CdecTrue lnbcChars wordsC9 = .ok invC9 ∧
    invC9.unknownFields = [⟨2, .bytes []⟩] ∧
    (encode CdecTrue invC9 []).map (fun r => r.words) = .ok (List.replicate 111 0) ∧
    jsSlice wordsC9 7 10 = [2, 0, 0] ∧
    jsSlice (List.replicate 111 0) 7 10 ≠ [2, 0, 0] := by
  refine ⟨by decide, by decide, by decide, by decide, by decide⟩

/-- Claim C9 (amended): unknown-type entries do not survive decode→encode:
the encoder emits `invoice.fields` only, and its result is entirely
independent of `unknownFields`, so entries the decoder routed there are
dropped from the re-encoded word stream. -/
theorem c9_unknown_fields_amended (C : Crypto) (inv : Invoice) (key : List Nat)
    (uf uf' : List Field) :
    encode C { inv with unknownFields := uf } key
      = encode C { inv with unknownFields := uf' } key := rfl

/-! ## Claim C6

Analysis of `parsePrefix`'s character loop, one lemma per phase of its
state machine: reading the network run, reading the digit run, reading
multiplier letters. -/

theorem ppStep_M (st : PPState) (c : Char) (st' : PPState)
    (hA : st.hasAmount = true) (h : ppStep st c = .ok st') :
    isLowerCode c.toNat = true ∧ st'.hasAmount = true := by
  cases hN : st.hasNetwork <;>
    cases hL : isLowerCode c.toNat <;>
      simp [ppStep, hN, hA, hL, Bind.bind, Except.bind, pure, Except.pure] at h <;>
      exact ⟨rfl, by rw [← h]⟩

theorem ppStep_A (st : PPState) (c : Char) (st' : PPState)
    (hN : st.hasNetwork = true) (hA : st.hasAmount = false) (hV : st.value ≠ [])
    (h : ppStep st c = .ok st') :
    (isDigitCode c.toNat = true ∧ st'.hasNetwork = true ∧ st'.hasAmount = false ∧
      st'.value ≠ []) ∨
    (isDigitCode c.toNat = false ∧ isLowerCode c.toNat = true ∧ st'.hasAmount = true) := by
  cases hD : isDigitCode c.toNat
  · cases hL : isLowerCode c.toNat <;>
      simp [ppStep, hN, hA, hD, hL, hV, Bind.bind, Except.bind, pure, Except.pure] at h
    exact Or.inr ⟨rfl, rfl, by rw [← h]⟩
  · simp [ppStep, hN, hA, hD, hV, Bind.bind, Except.bind, pure, Except.pure] at h
    refine Or.inl ⟨rfl, ?_, ?_, ?_⟩ <;> rw [← h] <;> simp [hV]

theorem ppStep_N (st : PPState) (c : Char) (st' : PPState)
    (hN : st.hasNetwork = false) (hA : st.hasAmount = false) (hV : st.value = [])
    (h : ppStep st c = .ok st') :
    (isLowerCode c.toNat = true ∧ st'.hasNetwork = false ∧ st'.hasAmount = false ∧
      st'.value = []) ∨
    (isLowerCode c.toNat = false ∧ isDigitCode c.toNat = true ∧ st'.hasNetwork = true ∧
      st'.hasAmount = false ∧ st'.value ≠ []) := by
  cases hL : isLowerCode c.toNat
  · cases hD : isDigitCode c.toNat <;>
      simp [ppStep, hN, hA, hL, hD, hV, Bind.bind, Except.bind, pure, Except.pure] at h
    refine Or.inr ⟨rfl, rfl, ?_, ?_, ?_⟩ <;> rw [← h] <;> simp
  · simp [ppStep, hN, hA, hL, hV, Bind.bind, Except.bind, pure, Except.pure] at h
    refine Or.inl ⟨rfl, ?_, ?_, ?_⟩ <;> rw [← h] <;> simp [hV]

theorem ppLoop_M (cs : List Char) : ∀ st : PPState, st.hasAmount = true →
    (ppLoop st cs).isOk = true → cs.all (fun c => isLowerCode c.toNat) = true := by
  induction cs with
  | nil => intro st _ _; rfl
  | cons c cs ih =>
    intro st hA h
    rcases hps : ppStep st c with e | st1
    · simp [ppLoop, hps, Bind.bind, Except.bind, Except.isOk, Except.toBool] at h
    · obtain ⟨hL, hA1⟩ := ppStep_M st c st1 hA hps
      simp only [ppLoop, hps, Bind.bind, Except.bind] at h
      rw [List.all_cons, hL, Bool.true_and]
      exact ih st1 hA1 h

theorem ppLoop_A (cs : List Char) : ∀ st : PPState, st.hasNetwork = true →
    st.hasAmount = false → st.value ≠ [] → (ppLoop st cs).isOk = true →
    (cs.dropWhile (fun c => isDigitCode c.toNat)).all
      (fun c => isLowerCode c.toNat) = true := by
  induction cs with
  | nil => intro st _ _ _ _; rfl
  | cons c cs ih =>
    intro st hN hA hV h
    rcases hps : ppStep st c with e | st1
    · simp [ppLoop, hps, Bind.bind, Except.bind, Except.isOk, Except.toBool] at h
    · simp only [ppLoop, hps, Bind.bind, Except.bind] at h
      rcases ppStep_A st c st1 hN hA hV hps with ⟨hD, h1, h2, h3⟩ | ⟨hD, hL, hA1⟩
      · rw [List.dropWhile_cons_of_pos (by simpa using hD)]
        exact ih st1 h1 h2 h3 h
      · rw [List.dropWhile_cons_of_neg (by simpa using hD)]
        rw [List.all_cons, hL, Bool.true_and]
        exact ppLoop_M cs st1 hA1 h

theorem ppLoop_N (cs : List Char) : ∀ st : PPState, st.hasNetwork = false →
    st.hasAmount = false → st.value = [] → (ppLoop st cs).isOk = true →
    amountShapeOK (cs.dropWhile (fun c => isLowerCode c.toNat)) = true := by
  induction cs with
  | nil => intro st _ _ _ _; rfl
  | cons c cs ih =>
    intro st hN hA hV h
    rcases hps : ppStep st c with e | st1
    · simp [ppLoop, hps, Bind.bind, Except.bind, Except.isOk, Except.toBool] at h
    · simp only [ppLoop, hps, Bind.bind, Except.bind] at h
      rcases ppStep_N st c st1 hN hA hV hps with ⟨hL, n1, n2, n3⟩ | ⟨hL, hD, m1, m2, m3⟩
      · rw [List.dropWhile_cons_of_pos (by simpa using hL)]
        exact ih st1 n1 n2 n3 h
      · rw [List.dropWhile_cons_of_neg (by simpa using hL)]
        have hrest := ppLoop_A cs st1 m1 m2 m3 h
        unfold amountShapeOK
        rw [List.takeWhile_cons_of_pos (by simpa using hD),
          List.dropWhile_cons_of_pos (by simpa using hD), hrest]
        simp

/-- Claim C6 (counterexample): the prefix `lnbc10un` has TWO lowercase
letters after the digit run, yet `parsePrefix` accepts it (each letter
overwrites `multiplier`; the last one, `n`, is used): it returns network
`bc` and value `10 × 10³ = 10000` pico instead of throwing. -/
theorem c6_prefix_grammar_counterexample :
    parsePrefix "lnbc10un".data = .ok (['b', 'c'], some 10000) ∧
    restAfterNetwork "lnbc10un".data = ['1', '0', 'u', 'n'] := by
  refine ⟨by decide, by decide⟩

/-- Claim C6 (amended): for every prefix accepted by `parsePrefix`, the
characters after the network tag are either nothing at all, or a non-empty
run of decimal digits followed by a run of ZERO OR MORE lowercase letters
(each successive letter overwrites the multiplier; the last one is used);
contrapositively, any prefix whose post-network characters violate this
shape makes `parsePrefix` throw. -/
theorem c6_prefix_grammar_amended (hrp : List Char) (res : List Char × Option Int)
    (h : parsePrefix hrp = .ok res) :
    amountShapeOK (restAfterNetwork hrp) = true := by
  unfold parsePrefix at h
  split at h
  · rename_i rest
    obtain ⟨st, hlp, h2⟩ := except_bind_ok _ _ _ h
    have hshape := ppLoop_N rest ⟨[], [], none, false, false⟩ rfl rfl rfl (by rw [hlp]; rfl)
    simpa [restAfterNetwork] using hshape
  · cases h

/-- Witness for the amended C6 theorem at a concrete accepted prefix. -/
theorem c6_prefix_grammar_amended_witness :
    amountShapeOK (restAfterNetwork "lnbc2500u".data) = true :=
  c6_prefix_grammar_amended "lnbc2500u".data (['b', 'c'], some 2500000000) (by decide)

/-! ## Claim C8 -/

/-- Claim C8: for every successfully decoded invoice (with at least the
104 signature words), `hash_data` is SHA-256 of the hrp's ASCII bytes
followed by the pad=true 8-bit repacking of the first
`words.length - 104` words; and `encode` signs a digest built by the same
construction — SHA-256 of the prefix's ASCII bytes followed by the
pad=true repacking of exactly the words it has written before the
signature (the 7 timestamp words and the field words), which form the
prefix of its output word stream. -/
theorem c8_hash_preimage (C : Crypto) (hrp : List Char) (words : List Nat)
    (inv inv2 : Invoice) (key : List Nat) (r : EncodeResult)
    (hdec : decode C hrp words = .ok inv) (hlen : 104 ≤ words.length)
    (henc : encode C inv2 key = .ok r) :
    inv.hashData = C.sha256 (asciiBytes hrp ++
      convertWords (words.take (words.length - 104)) 5 8 true) ∧
    ∃ w2 : WordCursor,
      encodeData ⟨WordCursor.writeWords inv2.timestamp 7, 0⟩ inv2.fields = .ok w2 ∧
      r.sigHash = C.sha256 (asciiBytes r.hrp ++ convertWords w2.words 5 8 true) ∧
      ∃ sigWords : List Nat, r.words = w2.words ++ sigWords := by
  constructor
  · have hproj := (decode_ok_proj C hrp words inv hdec).2
    rw [hproj]
    show C.sha256 (asciiBytes hrp ++
      convertWords (jsSlice words 0 (0 + ((words.length : Int) - 104))) 5 8 true) = _
    rw [zero_add, jsSlice_take_104 words hlen]
  · simp only [encode] at henc
    obtain ⟨w1, hw1, henc⟩ := except_bind_ok _ _ _ henc
    have hw1' : w1 = ⟨WordCursor.writeWords inv2.timestamp 7, 0⟩ := by
      simp [WordCursor.writeUIntBE] at hw1
      exact hw1.symm
    subst hw1'
    obtain ⟨w2, hw2, henc⟩ := except_bind_ok _ _ _ henc
    obtain ⟨w4, hw4, henc⟩ := except_bind_ok _ _ _ henc
    cases henc
    refine ⟨w2, hw2, ?_, ?_⟩
    · rfl
    · have hw4' : w4.words = (w2.writeBytes (C.ecdsaSign (C.sha256 (asciiBytes
          ('l' :: 'n' :: (inv2.network ++ encodePico inv2.value)) ++
          convertWords w2.words 5 8 true)) key).1 true).words ++
          WordCursor.writeWords (C.ecdsaSign (C.sha256 (asciiBytes
          ('l' :: 'n' :: (inv2.network ++ encodePico inv2.value)) ++
          convertWords w2.words 5 8 true)) key).2 1 := by
        simp [WordCursor.writeUIntBE] at hw4
        rw [← hw4]
      rw [hw4']
      simp only [WordCursor.writeBytes]
      rw [List.append_assoc]
      exact ⟨_, rfl⟩

/-- Witness for the C8 theorem at concrete inputs. -/
theorem c8_hash_preimage_witness :
    invC8.hashData = CdecTrue.sha256 (asciiBytes lnbcChars ++
      convertWords (wordsC8.take (wordsC8.length - 104)) 5 8 true) ∧
    ∃ w2 : WordCursor,
      encodeData ⟨WordCursor.writeWords invC8.timestamp 7, 0⟩ invC8.fields = .ok w2 ∧
      rC8.sigHash = CdecTrue.sha256 (asciiBytes rC8.hrp ++ convertWords w2.words 5 8 true) ∧
      ∃ sigWords : List Nat, rC8.words = w2.words ++ sigWords :=
  c8_hash_preimage CdecTrue lnbcChars wordsC8 invC8 invC8 [] rC8
    (by decide) (by decide) (by decide)

/-! ## Claims C4 and C10

The transport nonce dynamics: one `incNonce`/rotation step per AEAD
operation, on each side. -/

theorem incNonce_nonceAt (k : Nat) (hk : k + 1 < 65536) :
    NoiseState.incNonce (NoiseState.nonceAt k) = (k + 1, NoiseState.nonceAt (k + 1)) := by
  have hread : bufReadUInt16LE (NoiseState.nonceAt k) 4 = k := by
    unfold bufReadUInt16LE bufAt NoiseState.nonceAt
    simp [List.getD]
    omega
  unfold NoiseState.incNonce
  rw [hread]
  unfold bufWriteUInt16LE NoiseState.nonceAt
  simp [List.set]

theorem sendNonceStep_at (C : NoiseCrypto) (st : NoiseState) (k : Nat)
    (hk : k < 999) (hsn : st.sn = NoiseState.nonceAt k) :
    NoiseState.sendNonceStep C st = { st with sn := NoiseState.nonceAt (k + 1) } := by
  unfold NoiseState.sendNonceStep
  rw [hsn, incNonce_nonceAt k (by omega)]
  rw [if_neg (by omega : ¬(1000 ≤ k + 1))]

theorem sendNonceStep_rot (C : NoiseCrypto) (st : NoiseState)
    (hsn : st.sn = NoiseState.nonceAt 999) :
    NoiseState.sendNonceStep C st =
      { st with sk := (C.hkdf st.ck st.sk).drop 32,
                ck := (C.hkdf st.ck st.sk).take 32, sn := zeros12 } := by
  unfold NoiseState.sendNonceStep
  rw [hsn, incNonce_nonceAt 999 (by omega)]
  rw [if_pos (by omega : (1000 : Nat) ≤ 999 + 1)]
  rfl

theorem recvNonceStep_at (C : NoiseCrypto) (st : NoiseState) (k : Nat)
    (hk : k < 999) (hrn : st.rn = NoiseState.nonceAt k) :
    NoiseState.recvNonceStep C st = { st with rn := NoiseState.nonceAt (k + 1) } := by
  unfold NoiseState.recvNonceStep
  rw [hrn, incNonce_nonceAt k (by omega)]
  rw [if_neg (by omega : ¬(1000 ≤ k + 1))]

theorem recvNonceStep_rot (C : NoiseCrypto) (st : NoiseState)
    (hrn : st.rn = NoiseState.nonceAt 999) :
    NoiseState.recvNonceStep C st =
      { st with rk := (C.hkdf st.ck st.rk).drop 32,
                ck := (C.hkdf st.ck st.rk).take 32, rn := zeros12 } := by
  unfold NoiseState.recvNonceStep
  rw [hrn, incNonce_nonceAt 999 (by omega)]
  rw [if_pos (by omega : (1000 : Nat) ≤ 999 + 1)]
  rfl

theorem sendIter_lt (C : NoiseCrypto) (st : NoiseState) (h0 : st.sn = zeros12) :
    ∀ k, k ≤ 999 →
      (NoiseState.sendNonceStep C)^[k] st = { st with sn := NoiseState.nonceAt k } := by
  intro k
  induction k with
  | zero =>
    intro _
    rw [Function.iterate_zero_apply]
    rw [(by decide : NoiseState.nonceAt 0 = zeros12), ← h0]
  | succ k ih =>
    intro hk
    rw [Function.iterate_succ_apply', ih (by omega)]
    rw [sendNonceStep_at C _ k (by omega) rfl]

/-- Claim C4: from a fresh transport state (`sn` all zeros), each
send-side AEAD operation of `encryptMessage` is one `sendNonceStep`
(increment after encrypting, rotate when the post-increment counter
reaches 1000); for the first 999 operations `sk` and `ck` are unchanged
and the counter equals the operation count, and after exactly 1000
operations `sk` has rotated exactly once — it equals the last 32 bytes of
`HKDF(ck, sk)`, `ck` the first 32 — and `sn` is back to all zeros. -/
theorem c4_send_rotation (C : NoiseCrypto) (st s : NoiseState) (m : List Nat)
    (k : Nat) (h0 : st.sn = zeros12) (hk : k ≤ 999) :
    (NoiseState.encryptMessage C s m).2
      = NoiseState.sendNonceStep C (NoiseState.sendNonceStep C s) ∧
    ((NoiseState.sendNonceStep C)^[k] st).sk = st.sk ∧
    ((NoiseState.sendNonceStep C)^[k] st).ck = st.ck ∧
    ((NoiseState.sendNonceStep C)^[k] st).sn = NoiseState.nonceAt k ∧
    ((NoiseState.sendNonceStep C)^[1000] st).sk = (C.hkdf st.ck st.sk).drop 32 ∧
    ((NoiseState.sendNonceStep C)^[1000] st).ck = (C.hkdf st.ck st.sk).take 32 ∧
    ((NoiseState.sendNonceStep C)^[1000] st).sn = zeros12 := by
  have h999 := sendIter_lt C st h0 999 (by omega)
  have h1000 : (NoiseState.sendNonceStep C)^[1000] st =
      { st with sk := (C.hkdf st.ck st.sk).drop 32,
                ck := (C.hkdf st.ck st.sk).take 32, sn := zeros12 } := by
    rw [(by norm_num : (1000 : Nat) = 999 + 1), Function.iterate_succ_apply', h999,
      sendNonceStep_rot C _ rfl]
  rw [sendIter_lt C st h0 k hk, h1000]
  exact ⟨rfl, rfl, rfl, rfl, rfl, rfl, rfl⟩

/-- Witness for the C4 theorem on a concrete fresh transport state. -/
theorem c4_send_rotation_witness :
    (NoiseState.encryptMessage NCw sendSt []).2
      = NoiseState.sendNonceStep NCw (NoiseState.sendNonceStep NCw sendSt) ∧
    ((NoiseState.sendNonceStep NCw)^[5] sendSt).sk = sendSt.sk ∧
    ((NoiseState.sendNonceStep NCw)^[5] sendSt).ck = sendSt.ck ∧
    ((NoiseState.sendNonceStep NCw)^[5] sendSt).sn = NoiseState.nonceAt 5 ∧
    ((NoiseState.sendNonceStep NCw)^[1000] sendSt).sk
      = (NCw.hkdf sendSt.ck sendSt.sk).drop 32 ∧
    ((NoiseState.sendNonceStep NCw)^[1000] sendSt).ck
      = (NCw.hkdf sendSt.ck sendSt.sk).take 32 ∧
    ((NoiseState.sendNonceStep NCw)^[1000] sendSt).sn = zeros12 :=
  c4_send_rotation NCw sendSt sendSt [] 5 rfl (by omega)

/-- Claim C10: in every transport state reachable from a fresh
post-handshake state, `sn` and `rn` are 12-byte nonces whose little-endian
u16 counter at byte offsets 4..5 is at most 999 with the other ten bytes
zero — and the AEAD calls of `encryptMessage`, `decryptLength` and
`decryptMessage` use exactly the current `sn`/`rn` of such states, so the
counter never wraps its 16-bit field. -/
theorem c10_nonce_invariant (C : NoiseCrypto) (init s : NoiseState)
    (lc cbody m : List Nat)
    (h1 : init.sn = zeros12) (h2 : init.rn = zeros12)
    (hr : NoiseState.Reachable C init s) :
    (NoiseState.encryptMessage C s m).1 =
      C.ccpEncrypt s.sk s.sn [] (u16be m.length) ++
      C.ccpEncrypt (NoiseState.sendNonceStep C s).sk
        (NoiseState.sendNonceStep C s).sn [] m ∧
    (NoiseState.decryptLength C s lc).1 = bufReadUInt16BE (C.ccpDecrypt s.rk s.rn [] lc) 0 ∧
    (NoiseState.decryptMessage C s cbody).1 = C.ccpDecrypt s.rk s.rn [] cbody ∧
    (∃ i, i ≤ 999 ∧ s.sn = NoiseState.nonceAt i) ∧
    (∃ j, j ≤ 999 ∧ s.rn = NoiseState.nonceAt j) := by
  refine ⟨rfl, rfl, rfl, ?_⟩
  induction hr with
  | refl =>
    exact ⟨⟨0, by omega, h1.trans (by decide)⟩, ⟨0, by omega, h2.trans (by decide)⟩⟩
  | @send s' hr' ih =>
    obtain ⟨⟨i, hi, hsn⟩, ⟨j, hj, hrn⟩⟩ := ih
    by_cases hieq : i = 999
    · rw [sendNonceStep_rot C s' (by rw [hsn, hieq])]
      exact ⟨⟨0, by omega, (by decide : zeros12 = NoiseState.nonceAt 0)⟩, ⟨j, hj, hrn⟩⟩
    · rw [sendNonceStep_at C s' i (by omega) hsn]
      exact ⟨⟨i + 1, by omega, rfl⟩, ⟨j, hj, hrn⟩⟩
  | @recvLen s' lc' hr' ih =>
    obtain ⟨⟨i, hi, hsn⟩, ⟨j, hj, hrn⟩⟩ := ih
    show (∃ i, i ≤ 999 ∧ (NoiseState.recvNonceStep C s').sn = NoiseState.nonceAt i) ∧
      (∃ j, j ≤ 999 ∧ (NoiseState.recvNonceStep C s').rn = NoiseState.nonceAt j)
    by_cases hjeq : j = 999
    · rw [recvNonceStep_rot C s' (by rw [hrn, hjeq])]
      exact ⟨⟨i, hi, hsn⟩, ⟨0, by omega, (by decide : zeros12 = NoiseState.nonceAt 0)⟩⟩
    · rw [recvNonceStep_at C s' j (by omega) hrn]
      exact ⟨⟨i, hi, hsn⟩, ⟨j + 1, by omega, rfl⟩⟩
  | @recvMsg s' c' hr' ih =>
    obtain ⟨⟨i, hi, hsn⟩, ⟨j, hj, hrn⟩⟩ := ih
    show (∃ i, i ≤ 999 ∧ (NoiseState.recvNonceStep C s').sn = NoiseState.nonceAt i) ∧
      (∃ j, j ≤ 999 ∧ (NoiseState.recvNonceStep C s').rn = NoiseState.nonceAt j)
    by_cases hjeq : j = 999
    · rw [recvNonceStep_rot C s' (by rw [hrn, hjeq])]
      exact ⟨⟨i, hi, hsn⟩, ⟨0, by omega, (by decide : zeros12 = NoiseState.nonceAt 0)⟩⟩
    · rw [recvNonceStep_at C s' j (by omega) hrn]
      exact ⟨⟨i, hi, hsn⟩, ⟨j + 1, by omega, rfl⟩⟩

/-- Witness for the C10 theorem at a concrete fresh state. -/
theorem c10_nonce_invariant_witness :
    (NoiseState.encryptMessage NCw sendSt []).1 =
      NCw.ccpEncrypt sendSt.sk sendSt.sn [] (u16be ([] : List Nat).length) ++
      NCw.ccpEncrypt (NoiseState.sendNonceStep NCw sendSt).sk
        (NoiseState.sendNonceStep NCw sendSt).sn [] [] ∧
    (NoiseState.decryptLength NCw sendSt []).1
      = bufReadUInt16BE (NCw.ccpDecrypt sendSt.rk sendSt.rn [] []) 0 ∧
    (NoiseState.decryptMessage NCw sendSt []).1
      = NCw.ccpDecrypt sendSt.rk sendSt.rn [] [] ∧
    (∃ i, i ≤ 999 ∧ sendSt.sn = NoiseState.nonceAt i) ∧
    (∃ j, j ≤ 999 ∧ sendSt.rn = NoiseState.nonceAt j) :=
  c10_nonce_invariant NCw sendSt sendSt [] [] [] rfl rfl NoiseState.Reachable.refl

/-! ## Claim C3

A full run of the three-act handshake: the initiator against the
responder over the same static keys.  The crypto substrate is abstract;
the hypotheses are its contract (33-byte public keys, AEAD adding a
16-byte tag and inverting encryption, and the ECDH shared-secret symmetry
at the three key-agreement points). -/

theorem jsSlice_cons_head {α : Type} (x : α) (a b : List α) :
    jsSlice ((x :: a) ++ b) 0 1 = [x] := by
  unfold jsSlice jsIndex
  rw [if_neg (by omega : ¬((1 : Int) < 0)), if_neg (by omega : ¬((0 : Int) < 0))]
  have h1 : (1 : Int).toNat = 1 := by omega
  have h0 : (0 : Int).toNat = 0 := by omega
  rw [h1, h0]
  have hlen : ((x :: a) ++ b).length = a.length + b.length + 1 := by simp <;> omega
  rw [min_eq_left (by rw [hlen]; omega)]
  simp

theorem jsSlice_cons_mid {α : Type} (x : α) (a b : List α) (n : Nat) (ha : a.length = n) :
    jsSlice ((x :: a) ++ b) 1 (((1 + n : Nat) : Int)) = a := by
  unfold jsSlice jsIndex
  rw [if_neg (by omega : ¬(((1 + n : Nat) : Int) < 0)), if_neg (by omega : ¬((1 : Int) < 0))]
  have h1 : (1 : Int).toNat = 1 := by omega
  have h2 : (((1 + n : Nat) : Int)).toNat = 1 + n := by omega
  rw [h1, h2]
  have hlen : ((x :: a) ++ b).length = 1 + n + b.length := by simp [ha] <;> omega
  rw [min_eq_left (by rw [hlen]; omega), min_eq_left (by rw [hlen]; omega)]
  rw [List.take_left' (by simp [ha] <;> omega : (x :: a).length = 1 + n)]
  simp

theorem jsSlice_cons_tail {α : Type} (x : α) (a b : List α) (n : Nat) (ha : a.length = n) :
    jsSlice ((x :: a) ++ b) (((1 + n : Nat) : Int)) ((((x :: a) ++ b).length : Nat) : Int) = b := by
  unfold jsSlice jsIndex
  rw [if_neg (by omega : ¬((((((x :: a) ++ b).length : Nat)) : Int) < 0)),
    if_neg (by omega : ¬(((1 + n : Nat) : Int) < 0))]
  have h2 : (((1 + n : Nat) : Int)).toNat = 1 + n := by omega
  have h3 : (((((x :: a) ++ b).length : Nat)) : Int).toNat = ((x :: a) ++ b).length := by omega
  rw [h2, h3]
  rw [min_self, List.take_length]
  rw [min_eq_left (by simp [ha] <;> omega)]
  rw [List.drop_left' (by simp [ha] <;> omega : (x :: a).length = 1 + n)]



theorem receiveAct1_ok (C : NoiseCrypto) (st : NoiseState) (ep c : List Nat)
    (hep : ep.length = 33) (hc : c.length = 16) :
    NoiseState.receiveAct1 C st ((0 :: ep) ++ c) = .ok
      { NoiseState.initState C st st.lp with
        re := ep
        h := C.sha256 (C.sha256 ((NoiseState.initState C st st.lp).h ++ ep) ++ c)
        ck := (C.hkdf (NoiseState.initState C st st.lp).ck (C.ecdh ep st.ls)).take 32
        temp_k1 := (C.hkdf (NoiseState.initState C st st.lp).ck (C.ecdh ep st.ls)).drop 32 } := by
  have hmid : jsSlice ((0 :: ep) ++ c) 1 34 = ep := by
    have h' := jsSlice_cons_mid 0 ep c 33 hep
    norm_num at h'
    exact h'
  have hlen : ((0 :: ep) ++ c).length = 50 := by simp [hep, hc]
  have htail : jsSlice (0 :: (ep ++ c)) 34 50 = c := by
    have h' := jsSlice_cons_tail 0 ep c 33 hep
    simp only [hlen] at h'
    norm_num at h'
    exact h'
  simp only [NoiseState.receiveAct1, hmid, jsSlice_cons_head, bufAt, hlen]
  norm_num
  simp [NoiseState.initState, htail]

theorem initiatorAct2_ok (C : NoiseCrypto) (st : NoiseState) (ep c : List Nat)
    (hep : ep.length = 33) (hc : c.length = 16) :
    NoiseState.initiatorAct2 C st ((0 :: ep) ++ c) = .ok
      { st with
        re := ep
        h := C.sha256 (C.sha256 (st.h ++ ep) ++ c)
        ck := (C.hkdf st.ck (C.ecdh ep st.es)).take 32
        temp_k2 := (C.hkdf st.ck (C.ecdh ep st.es)).drop 32 } := by
  have hmid : jsSlice ((0 :: ep) ++ c) 1 34 = ep := by
    have h' := jsSlice_cons_mid 0 ep c 33 hep
    norm_num at h'
    exact h'
  have hlen : ((0 :: ep) ++ c).length = 50 := by simp [hep, hc]
  have htail : jsSlice (0 :: (ep ++ c)) 34 50 = c := by
    have h' := jsSlice_cons_tail 0 ep c 33 hep
    simp only [hlen] at h'
    norm_num at h'
    exact h'
  simp only [NoiseState.initiatorAct2, hmid, jsSlice_cons_head, bufAt, hlen]
  norm_num
  simp [htail]

theorem receiveAct3_ok (C : NoiseCrypto) (st : NoiseState) (c t : List Nat)
    (hc : c.length = 49) (ht : t.length = 16) :
    NoiseState.receiveAct3 C st ((0 :: c) ++ t) = .ok
      { st with
        rs := C.ccpDecrypt st.temp_k2 NoiseState.nonce1 st.h c
        h := C.sha256 (st.h ++ c)
        ck := (C.hkdf st.ck
          (C.ecdh (C.ccpDecrypt st.temp_k2 NoiseState.nonce1 st.h c) st.es)).take 32
        temp_k3 := (C.hkdf st.ck
          (C.ecdh (C.ccpDecrypt st.temp_k2 NoiseState.nonce1 st.h c) st.es)).drop 32
        rk := (C.hkdf ((C.hkdf st.ck
          (C.ecdh (C.ccpDecrypt st.temp_k2 NoiseState.nonce1 st.h c) st.es)).take 32) []).take 32
        sk := (C.hkdf ((C.hkdf st.ck
          (C.ecdh (C.ccpDecrypt st.temp_k2 NoiseState.nonce1 st.h c) st.es)).take 32) []).drop 32
        rn := zeros12
        sn := zeros12 } := by
  have hmid : jsSlice ((0 :: c) ++ t) 1 50 = c := by
    have h' := jsSlice_cons_mid 0 c t 49 hc
    norm_num at h'
    exact h'
  have hlen : ((0 :: c) ++ t).length = 66 := by simp [hc, ht]
  have htail : jsSlice (0 :: (c ++ t)) 50 66 = t := by
    have h' := jsSlice_cons_tail 0 c t 49 hc
    simp only [hlen] at h'
    norm_num at h'
    exact h'
  simp only [NoiseState.receiveAct3, hmid, jsSlice_cons_head, bufAt, hlen]
  norm_num

/-- Claim C3: a handshake run over the same keys (initiator
`initiatorAct1`/`initiatorAct2`/`initiatorAct3` against responder
`receiveAct1`/`recieveAct2`/`receiveAct3`) completes without error, the
initiator assigns `sk` the first 32 and `rk` the last 32 bytes of
`HKDF(ck, ∅)`, the responder assigns `rk` the first 32 and `sk` the last
32, and consequently the initiator's `sk` equals the responder's `rk` and
the initiator's `rk` equals the responder's `sk`. -/
theorem c3_handshake_key_swap (C : NoiseCrypto) (ls_i es_i ls_r es_r : List Nat)
    (hlen_epi : (C.getPublicKey es_i).length = 33)
    (hlen_epr : (C.getPublicKey es_r).length = 33)
    (hlen_lpi : (C.getPublicKey ls_i).length = 33)
    (hEncLen : ∀ k n ad p, (C.ccpEncrypt k n ad p).length = p.length + 16)
    (hDecEnc : ∀ k n ad p, C.ccpDecrypt k n ad (C.ccpEncrypt k n ad p) = p)
    (hEcdh1 : C.ecdh (C.getPublicKey ls_r) es_i = C.ecdh (C.getPublicKey es_i) ls_r)
    (hEcdh2 : C.ecdh (C.getPublicKey es_r) es_i = C.ecdh (C.getPublicKey es_i) es_r)
    (hEcdh3 : C.ecdh (C.getPublicKey es_r) ls_i = C.ecdh (C.getPublicKey ls_i) es_r) :
    ∃ (sR1 sI2 sR3 : NoiseState),
      NoiseState.receiveAct1 C (NoiseState.mk0 C ls_r es_r)
        (NoiseState.initiatorAct1 C (NoiseState.mk0 C ls_i es_i) (C.getPublicKey ls_r)).1
        = .ok sR1 ∧
      NoiseState.initiatorAct2 C
        (NoiseState.initiatorAct1 C (NoiseState.mk0 C ls_i es_i) (C.getPublicKey ls_r)).2
        (NoiseState.recieveAct2 C sR1).1 = .ok sI2 ∧
      NoiseState.receiveAct3 C (NoiseState.recieveAct2 C sR1).2
        (NoiseState.initiatorAct3 C sI2).1 = .ok sR3 ∧
      (NoiseState.initiatorAct3 C sI2).2.sk
        = (C.hkdf (NoiseState.initiatorAct3 C sI2).2.ck []).take 32 ∧
      (NoiseState.initiatorAct3 C sI2).2.rk
        = (C.hkdf (NoiseState.initiatorAct3 C sI2).2.ck []).drop 32 ∧
      sR3.rk = (C.hkdf sR3.ck []).take 32 ∧
      sR3.sk = (C.hkdf sR3.ck []).drop 32 ∧
      (NoiseState.initiatorAct3 C sI2).2.sk = sR3.rk ∧
      (NoiseState.initiatorAct3 C sI2).2.rk = sR3.sk := by
  refine ⟨_, _, _,
    receiveAct1_ok C _ _ _ hlen_epi
      (by show (C.ccpEncrypt _ _ _ []).length = 16; rw [hEncLen]; rfl),
    initiatorAct2_ok C _ _ _ hlen_epr
      (by show (C.ccpEncrypt _ _ _ []).length = 16; rw [hEncLen]; rfl),
    receiveAct3_ok C _ _ _
      (by show (C.ccpEncrypt _ _ _ (C.getPublicKey ls_i)).length = 49
          rw [hEncLen, hlen_lpi])
      (by show (C.ccpEncrypt _ _ _ []).length = 16; rw [hEncLen]; rfl),
    rfl, rfl, rfl, rfl, ?_, ?_⟩ <;>
  · simp only [NoiseState.mk0, NoiseState.initState, NoiseState.initiatorAct1,
      NoiseState.recieveAct2, NoiseState.initiatorAct3, List.append_eq, List.nil_append]
    rw [← hEcdh1, ← hEcdh2, hDecEnc, ← hEcdh3]

/-- Witness for the C3 theorem over a concrete crypto backend. -/
theorem c3_handshake_key_swap_witness :
    ∃ (sR1 sI2 sR3 : NoiseState),
      NoiseState.receiveAct1 NCw (NoiseState.mk0 NCw [3] [4])
        (NoiseState.initiatorAct1 NCw (NoiseState.mk0 NCw [1] [2]) (NCw.getPublicKey [3])).1
        = .ok sR1 ∧
      NoiseState.initiatorAct2 NCw
        (NoiseState.initiatorAct1 NCw (NoiseState.mk0 NCw [1] [2]) (NCw.getPublicKey [3])).2
        (NoiseState.recieveAct2 NCw sR1).1 = .ok sI2 ∧
      NoiseState.receiveAct3 NCw (NoiseState.recieveAct2 NCw sR1).2
        (NoiseState.initiatorAct3 NCw sI2).1 = .ok sR3 ∧
      (NoiseState.initiatorAct3 NCw sI2).2.sk
        = (NCw.hkdf (NoiseState.initiatorAct3 NCw sI2).2.ck []).take 32 ∧
      (NoiseState.initiatorAct3 NCw sI2).2.rk
        = (NCw.hkdf (NoiseState.initiatorAct3 NCw sI2).2.ck []).drop 32 ∧
      sR3.rk = (NCw.hkdf sR3.ck []).take 32 ∧
      sR3.sk = (NCw.hkdf sR3.ck []).drop 32 ∧
      (NoiseState.initiatorAct3 NCw sI2).2.sk = sR3.rk ∧
      (NoiseState.initiatorAct3 NCw sI2).2.rk = sR3.sk :=
  c3_handshake_key_swap NCw [1] [2] [3] [4] (by decide) (by decide) (by decide)
    (fun k n ad p => by simp [NCw])
    (fun k n ad p => by simp [NCw])
    rfl rfl rfl

end LNTools
